import Mathlib

/-!
Shallow embedding of the habit consistency engine of `bot/services/streak.py`
(repository `mewegotracker`), together with theorems settling the frozen
claims about it.

Modelling conventions:
* Python `datetime.date` values are represented by their proleptic Gregorian
  ordinal (`date.toordinal()`), an `Int`; `date` arithmetic (`- timedelta`,
  `(a - b).days`) becomes `Int` arithmetic.
* `HabitLog.log_date` (`nullable` column) is `Option Int`; `if log.log_date:`
  becomes `isSome` (a `date` object is always truthy).
* The dict `log_by_date` (later inserts win) is embedded as a reverse lookup
  over the input list.
* Python's unbounded `while` loops are embedded with explicit fuel; the fuel
  bounds are proved sufficient (the termination claims).
* `date.isocalendar()` is embedded following CPython's implementation
  (`_isoweek1monday`, `_ord2ymd` restricted to the year, and `isocalendar`).
-/

namespace Streak

/-- Embeds `LogStatus` of `bot/models.py`. -/
inductive LogStatus where
  | done
  | not_done
  | skipped
deriving DecidableEq, Repr

/-- Embeds `ScheduleType` of `bot/models.py`. -/
inductive ScheduleType where
  | daily
  | weekly
deriving DecidableEq, Repr

/-- Embeds the fields of `HabitLog` that the engine reads: `log_date`
(nullable date, as proleptic Gregorian ordinal) and `status`. -/
structure HabitLog where
  log_date : Option Int
  status : LogStatus
deriving DecidableEq, Repr

/-- Embeds the `HabitStats` dataclass of `bot/services/streak.py`. -/
structure HabitStats where
  current_streak : Nat
  best_streak : Nat
  done_7_days : Nat
  done_30_days : Nat
  total_done : Nat
deriving DecidableEq, Repr

/-- The dates of the dated logs, in input order (`[l.log_date for l in logs if l.log_date]`). -/
def logDates (logs : List HabitLog) : List Int :=
  logs.filterMap (fun l => l.log_date)

/-- Embeds the `log_by_date` dict of `calculate_daily_streak`: built by a
forward pass where later records for the same date overwrite earlier ones,
so lookup finds the last matching record. -/
def logByDate (logs : List HabitLog) (d : Int) : Option LogStatus :=
  (logs.reverse.find? (fun l => l.log_date == some d)).map (fun l => l.status)

/-- Embeds the current-streak `while True` loop of `calculate_daily_streak`
(lines 53-70), with explicit fuel; `none` means the fuel ran out. -/
def dailyWalk (m : Int → Option LogStatus) (today : Int) :
    Nat → Int → Nat → Option Nat
  | 0, _, _ => none
  | fuel + 1, d, streak =>
    match m d with
    | some .done => dailyWalk m today fuel (d - 1) (streak + 1)
    | some .skipped => dailyWalk m today fuel (d - 1) streak
    | some .not_done => some streak
    | none =>
      if d < today then some streak
      else dailyWalk m today fuel (d - 1) streak

/-- The minimum recorded date (defaulting to `today` when no log is dated);
used only to bound the fuel of `dailyWalk`. -/
def minLogDate (logs : List HabitLog) (today : Int) : Int :=
  (logDates logs).foldr min today

/-- Fuel that suffices for `dailyWalk` (proved below): once the walk passes
the minimum recorded date it meets an unmarked date strictly before `today`. -/
def dailyFuel (logs : List HabitLog) (today : Int) : Nat :=
  (today - minLogDate logs today).toNat + 2

/-- The current-streak half of `calculate_daily_streak`. -/
def calculate_daily_current (logs : List HabitLog) (today : Int) : Option Nat :=
  dailyWalk (logByDate logs) today (dailyFuel logs today) today 0

/-- The dated logs as `(ordinal, status)` pairs, in input order
(`[l for l in logs if l.log_date]`). -/
def datedLogs (logs : List HabitLog) : List (Int × LogStatus) :=
  logs.filterMap (fun l => l.log_date.map (fun d => (d, l.status)))

/-- Stable insertion by date: the new pair goes after every pair with an
earlier-or-equal date, matching Python's stable `sorted(..., key=date)`. -/
def insertByDate (p : Int × LogStatus) : List (Int × LogStatus) → List (Int × LogStatus)
  | [] => [p]
  | q :: rest => if q.1 ≤ p.1 then q :: insertByDate p rest else p :: q :: rest

/-- Embeds `sorted_logs = sorted([l for l in logs if l.log_date], key=date)`. -/
def sortedDated (logs : List HabitLog) : List (Int × LogStatus) :=
  (datedLogs logs).foldl (fun acc p => insertByDate p acc) []

/-- Embeds the gap loop of the best-streak scan (lines 89-95): every date
strictly between `prev` and `cur` must carry a `Skipped` record. -/
def gapOk (m : Int → Option LogStatus) (prev cur : Int) : Bool :=
  (List.range' 1 ((cur - prev).toNat - 1)).all
    (fun i => m (prev + (i : Int)) == some .skipped)

/-- State of the best-streak scan: running streak, anchor date (`prev_date`),
and best streak so far. -/
structure BestState where
  streak : Nat
  prev_date : Option Int
  best : Nat
deriving DecidableEq, Repr

/-- One iteration of the best-streak `for` loop of `calculate_daily_streak`
(lines 79-110). -/
def bestStep (m : Int → Option LogStatus) (s : BestState) (p : Int × LogStatus) :
    BestState :=
  match p.2 with
  | .done =>
    let streak' :=
      match s.prev_date with
      | none => 1
      | some prev =>
        if p.1 == prev + 1 then s.streak + 1
        else if p.1 == prev then s.streak
        else if gapOk m prev p.1 then s.streak + 1
        else 1
    { streak := streak', prev_date := some p.1, best := max s.best streak' }
  | .skipped =>
    { s with prev_date := if s.prev_date.isSome then some p.1 else s.prev_date }
  | .not_done => { s with streak := 0, prev_date := none }

/-- The best-streak half of `calculate_daily_streak`. -/
def calculate_daily_best (logs : List HabitLog) : Nat :=
  ((sortedDated logs).foldl (bestStep (logByDate logs)) ⟨0, none, 0⟩).best

/-- Embeds `calculate_daily_streak`; `none` only if the fueled walk (the
`while True` loop) were to run out of fuel, which is proved impossible. -/
def calculate_daily_streak (logs : List HabitLog) (today : Int) :
    Option (Nat × Nat) :=
  if logs.isEmpty then some (0, 0)
  else (calculate_daily_current logs today).map
    (fun c => (c, calculate_daily_best logs))

/-! ### ISO calendar arithmetic (CPython `datetime`) -/

/-- Embeds CPython `_days_before_year`: days before January 1 of `year`. -/
def daysBeforeYear (year : Int) : Int :=
  (year - 1) * 365 + (year - 1).fdiv 4 - (year - 1).fdiv 100 + (year - 1).fdiv 400

/-- Embeds CPython `_isoweek1monday`: ordinal of the Monday starting ISO
week 1 of `year`. -/
def isoweek1monday (year : Int) : Int :=
  let firstday := daysBeforeYear year + 1
  let firstweekday := (firstday + 6).fmod 7
  let week1monday := firstday - firstweekday
  if 3 < firstweekday then week1monday + 7 else week1monday

/-- The Gregorian year containing ordinal `n0`, following CPython `_ord2ymd`. -/
def ordYear (n0 : Int) : Int :=
  let n := n0 - 1
  let n400 := n.fdiv 146097
  let r400 := n.fmod 146097
  let n100 := r400.fdiv 36524
  let r100 := r400.fmod 36524
  let n4 := r100.fdiv 1461
  let r4 := r100.fmod 1461
  let n1 := r4.fdiv 365
  let year := n400 * 400 + n100 * 100 + n4 * 4 + n1 + 1
  if n1 == 4 || n100 == 4 then year - 1 else year

/-- Embeds `date.isocalendar()` restricted to `(year, week)`, following
CPython: compute the week offset from ISO week 1 of the Gregorian year,
then adjust into the previous or next ISO year at the boundaries. -/
def isoYearWeek (d : Int) : Int × Int :=
  let year := ordYear d
  let week := (d - isoweek1monday year).fdiv 7
  if week < 0 then
    (year - 1, (d - isoweek1monday (year - 1)).fdiv 7 + 1)
  else if week ≥ 52 && d ≥ isoweek1monday (year + 1) then
    (year + 1, 1)
  else
    (year, week + 1)

/-- The ISO `(year, week)` key of a date, as built in `calculate_weekly_streak`
(`(log_date.isocalendar()[0], log_date.isocalendar()[1])`). -/
def weekOf (d : Int) : Int × Int := isoYearWeek d

/-- Embeds `get_previous_week` of `bot/services/streak.py`: for week 1 it
takes the ISO week number of December 31 of the previous year. -/
def get_previous_week (w : Int × Int) : Int × Int :=
  if w.2 == 1 then
    let prev_year := w.1 - 1
    (prev_year, (isoYearWeek (daysBeforeYear (prev_year + 1))).2)
  else (w.1, w.2 - 1)

/-! ### Weekly streaks -/

/-- The key set of the `weeks` dict of `calculate_weekly_streak`: the distinct
ISO week keys of the dated logs. -/
def weekKeys (logs : List HabitLog) : List (Int × Int) :=
  ((datedLogs logs).map (fun p => weekOf p.1)).dedup

/-- Embeds `check_week in weeks`. -/
def weekPresent (logs : List HabitLog) (w : Int × Int) : Bool :=
  (datedLogs logs).any (fun p => weekOf p.1 == w)

/-- The bucket `weeks[w]`: statuses of the dated logs falling in week `w`,
in input order. -/
def weekStatuses (logs : List HabitLog) (w : Int × Int) : List LogStatus :=
  (datedLogs logs).filterMap (fun p => if weekOf p.1 == w then some p.2 else none)

/-- Embeds `is_week_success`: the count of `Done` statuses reaches the weekly
target. -/
def is_week_success (weekly_target : Int) (statuses : List LogStatus) : Bool :=
  weekly_target ≤ (statuses.countP (fun s => s == .done) : Int)

/-- Lexicographic order on week keys, as Python's tuple comparison in
`sorted(weeks.keys())`. -/
def weekLe (a b : Int × Int) : Bool :=
  a.1 < b.1 || (a.1 == b.1 && a.2 ≤ b.2)

/-- Insertion step of the week-key sort. -/
def insertWeek (w : Int × Int) : List (Int × Int) → List (Int × Int)
  | [] => [w]
  | q :: rest => if weekLe q w then q :: insertWeek w rest else w :: q :: rest

/-- Embeds `sorted_weeks = sorted(weeks.keys())`. -/
def sortedWeeks (logs : List HabitLog) : List (Int × Int) :=
  (weekKeys logs).foldl (fun acc w => insertWeek w acc) []

/-- Embeds the current-streak `while` loop of `calculate_weekly_streak`
(lines 160-166), with explicit fuel. -/
def weeklyWalk (logs : List HabitLog) (target : Int) :
    Nat → Int × Int → Nat → Option Nat
  | 0, _, _ => none
  | fuel + 1, w, streak =>
    if weekPresent logs w then
      if is_week_success target (weekStatuses logs w) then
        weeklyWalk logs target fuel (get_previous_week w) (streak + 1)
      else some streak
    else some streak

/-- Fuel that suffices for `weeklyWalk` (proved below): the walk visits
strictly lexicographically decreasing keys of the finite bucket map. -/
def weeklyFuel (logs : List HabitLog) : Nat :=
  (weekKeys logs).length + 1

/-- The current-streak half of `calculate_weekly_streak`. -/
def weeklyCurrent (logs : List HabitLog) (target today : Int) : Option Nat :=
  weeklyWalk logs target (weeklyFuel logs) (weekOf today) 0

/-- Embeds the best-streak `for i, week in enumerate(sorted_weeks)` loop of
`calculate_weekly_streak` (lines 172-185); `prevOpt` is `none` exactly at
index 0. -/
def weeklyBestScan (succ : Int × Int → Bool) :
    List (Int × Int) → Option (Int × Int) → Nat → Nat → Nat
  | [], _, _, best => best
  | w :: rest, prevOpt, streak, best =>
    if succ w then
      let streak' :=
        match prevOpt with
        | none => 1
        | some pw => if pw == get_previous_week w && succ pw then streak + 1 else 1
      weeklyBestScan succ rest (some w) streak' (max best streak')
    else weeklyBestScan succ rest (some w) 0 best

/-- Embeds `calculate_weekly_streak`. -/
def calculate_weekly_streak (logs : List HabitLog) (weekly_target today : Int) :
    Option (Nat × Nat) :=
  if logs.isEmpty then some (0, 0)
  else if (sortedWeeks logs).isEmpty then some (0, 0)
  else
    (weeklyCurrent logs weekly_target today).map
      (fun c =>
        (c, weeklyBestScan
              (fun w => is_week_success weekly_target (weekStatuses logs w))
              (sortedWeeks logs) none 0 0))

/-- Embeds the rolling-window count of `get_habit_stats` (lines 241-249):
`Done` records whose date satisfies `(today - log_date).days <= k`; records
without a date are never window-counted. -/
def countWindow (logs : List HabitLog) (today k : Int) : Nat :=
  logs.countP (fun l =>
    l.status == .done &&
      (match l.log_date with
       | some d => decide (today - d ≤ k)
       | none => false))

/-- Embeds `get_habit_stats`: dispatch on the schedule type for the streak
pair, then attach the rolling-window counts. -/
def get_habit_stats (logs : List HabitLog) (schedule_type : ScheduleType)
    (weekly_target today : Int) : Option HabitStats :=
  (if schedule_type == ScheduleType.daily then calculate_daily_streak logs today
   else calculate_weekly_streak logs weekly_target today).map (fun cb =>
    { current_streak := cb.1
      best_streak := cb.2
      done_7_days := countWindow logs today 7
      done_30_days := countWindow logs today 30
      total_done := logs.countP (fun l => l.status == .done) })

/-! ### Specification-side definitions (from the claims' words, for comparison) -/

/-- Claim C1's window rule, from the spec's words: `Done` records with a
non-null date whose `(today - logDate).days` lies in `[lo, hi]`. -/
def specWindowDone (logs : List HabitLog) (today lo hi : Int) : Nat :=
  logs.countP (fun l =>
    l.status == .done &&
      (match l.log_date with
       | some d => decide (lo ≤ today - d ∧ today - d ≤ hi)
       | none => false))

/-- The condition under which the backward daily walk continues past date
`d`: the date is `Done` or `Skipped`, or unmarked but not strictly before
`today`. -/
def continuesAt (m : Int → Option LogStatus) (today d : Int) : Prop :=
  m d = some .done ∨ m d = some .skipped ∨ (m d = none ∧ ¬ d < today)

/-- Number of `Done` dates among `d, d-1, ..., d-n+1`. -/
def doneCount (m : Int → Option LogStatus) : Int → Nat → Nat
  | _, 0 => 0
  | d, n + 1 => (if m d = some .done then 1 else 0) + doneCount m (d - 1) n

/-- The last ISO week of a year per ISO 8601: the ISO week of December 28,
which always lies in the year's final (52nd or 53rd) ISO week. Used as the
specification-side reference for claim C6. -/
def isoLastWeekOfYear (year : Int) : Int :=
  (isoYearWeek (daysBeforeYear (year + 1) - 3)).2

/-- Strict lexicographic order on ISO week keys. -/
def weekLt (a b : Int × Int) : Prop :=
  a.1 < b.1 ∨ (a.1 = b.1 ∧ a.2 < b.2)

/-! ### Daily walk: termination -/

lemma dailyWalk_none (m : Int → Option LogStatus) (today : Int) :
    ∀ (fuel : Nat) (d : Int) (acc : Nat), dailyWalk m today fuel d acc = none →
      ∀ j : Nat, j < fuel → continuesAt m today (d - j) := by
  intro fuel
  induction fuel with
  | zero => intro d acc _ j hj; omega
  | succ fuel ih =>
    intro d acc h j hj
    simp only [dailyWalk] at h
    cases hm : m d with
    | none =>
      rw [hm] at h
      by_cases hd : d < today
      · rw [if_pos hd] at h; exact absurd h (by simp)
      · rw [if_neg hd] at h
        match j with
        | 0 =>
          simp only [Nat.cast_zero, sub_zero]
          exact Or.inr (Or.inr ⟨hm, hd⟩)
        | j + 1 =>
          have hstep := ih (d - 1) acc h j (by omega)
          have harith : d - 1 - (j : Int) = d - ((j : Nat) + 1 : Nat) := by
            push_cast; ring
          rwa [harith] at hstep
    | some st =>
      rw [hm] at h
      cases st with
      | done =>
        match j with
        | 0 =>
          simp only [Nat.cast_zero, sub_zero]
          exact Or.inl hm
        | j + 1 =>
          have hstep := ih (d - 1) (acc + 1) h j (by omega)
          have harith : d - 1 - (j : Int) = d - ((j : Nat) + 1 : Nat) := by
            push_cast; ring
          rwa [harith] at hstep
      | skipped =>
        match j with
        | 0 =>
          simp only [Nat.cast_zero, sub_zero]
          exact Or.inr (Or.inl hm)
        | j + 1 =>
          have hstep := ih (d - 1) acc h j (by omega)
          have harith : d - 1 - (j : Int) = d - ((j : Nat) + 1 : Nat) := by
            push_cast; ring
          rwa [harith] at hstep
      | not_done => exact absurd h (by simp)

lemma foldr_min_le_init (l : List Int) (init : Int) : l.foldr min init ≤ init := by
  induction l with
  | nil => exact le_refl _
  | cons a l ih => exact le_trans (min_le_right _ _) ih

lemma foldr_min_le_mem (l : List Int) (init x : Int) (hx : x ∈ l) :
    l.foldr min init ≤ x := by
  induction l with
  | nil => cases hx
  | cons a l ih =>
    rcases List.mem_cons.mp hx with rfl | h
    · exact min_le_left _ _
    · exact le_trans (min_le_right _ _) (ih h)

lemma minLogDate_le_today (logs : List HabitLog) (today : Int) :
    minLogDate logs today ≤ today :=
  foldr_min_le_init _ _

lemma find?_prop {α : Type} (p : α → Bool) :
    ∀ (l : List α) (a : α), l.find? p = some a → p a = true := by
  intro l
  induction l with
  | nil => intro a h; cases h
  | cons x xs ih =>
    intro a h
    by_cases hx : p x = true
    · rw [List.find?_cons_of_pos _ hx] at h
      cases h
      exact hx
    · rw [List.find?_cons_of_neg _ (by simpa using hx)] at h
      exact ih a h

lemma mem_logDates_of_logByDate (logs : List HabitLog) (d : Int)
    (h : logByDate logs d ≠ none) : d ∈ logDates logs := by
  unfold logByDate at h
  cases hf : logs.reverse.find? (fun l => l.log_date == some d) with
  | none => rw [hf] at h; exact absurd rfl h
  | some l =>
    have hmem : l ∈ logs := List.mem_reverse.mp (List.mem_of_find?_eq_some hf)
    have hpred := find?_prop (fun l => l.log_date == some d) logs.reverse l hf
    have hdate : l.log_date = some d := by simpa using hpred
    exact List.mem_filterMap.mpr ⟨l, hmem, hdate⟩

lemma logByDate_eq_none_of_lt_min (logs : List HabitLog) (today d : Int)
    (hd : d < minLogDate logs today) : logByDate logs d = none := by
  by_contra h
  have hmem := mem_logDates_of_logByDate logs d h
  have := foldr_min_le_mem (logDates logs) today d hmem
  unfold minLogDate at hd
  omega

lemma calculate_daily_current_isSome (logs : List HabitLog) (today : Int) :
    (calculate_daily_current logs today).isSome = true := by
  rw [Option.isSome_iff_ne_none]
  intro h
  have hall := dailyWalk_none (logByDate logs) today _ _ _ h
  have hM : minLogDate logs today ≤ today := minLogDate_le_today logs today
  have hj : ((today - minLogDate logs today).toNat + 1) < dailyFuel logs today := by
    unfold dailyFuel; omega
  have hc := hall _ hj
  have he : today - (((today - minLogDate logs today).toNat + 1 : Nat) : Int) =
      minLogDate logs today - 1 := by push_cast; omega
  rw [he] at hc
  have h1 : logByDate logs (minLogDate logs today - 1) = none :=
    logByDate_eq_none_of_lt_min logs today _ (by omega)
  have h2 : minLogDate logs today - 1 < today := by omega
  rcases hc with hc | hc | ⟨_, hc⟩
  · rw [h1] at hc; cases hc
  · rw [h1] at hc; cases hc
  · exact hc h2

/-! ### Weekly walk: termination -/

lemma weekLt_irrefl (a : Int × Int) : ¬ weekLt a a := by
  unfold weekLt; omega

lemma weekLt_trans {a b c : Int × Int} (h1 : weekLt a b) (h2 : weekLt b c) :
    weekLt a c := by
  unfold weekLt at *
  rcases h1 with h1 | ⟨h1, h1'⟩ <;> rcases h2 with h2 | ⟨h2, h2'⟩ <;> omega

lemma get_previous_week_lt (w : Int × Int) : weekLt (get_previous_week w) w := by
  obtain ⟨y, wn⟩ := w
  by_cases h : wn = 1
  · have hw : get_previous_week (y, wn) =
        (y - 1, (isoYearWeek (daysBeforeYear (y - 1 + 1))).2) := by
      unfold get_previous_week
      rw [if_pos (by simpa using h)]
    rw [hw]
    left
    show y - 1 < y
    omega
  · have hw : get_previous_week (y, wn) = (y, wn - 1) := by
      unfold get_previous_week
      rw [if_neg (by simpa using h)]
    rw [hw]
    right
    refine ⟨rfl, ?_⟩
    show wn - 1 < wn
    omega

lemma iterate_prev_lt_of_lt (w : Int × Int) (i j : Nat) (hij : i < j) :
    weekLt (get_previous_week^[j] w) (get_previous_week^[i] w) := by
  obtain ⟨k, rfl⟩ : ∃ k, j = i + k + 1 := ⟨j - i - 1, by omega⟩
  clear hij
  induction k with
  | zero =>
    rw [show i + 0 + 1 = i + 1 by ring, Function.iterate_succ_apply']
    exact get_previous_week_lt _
  | succ k ih =>
    have hstep : get_previous_week^[i + (k + 1) + 1] w =
        get_previous_week (get_previous_week^[i + k + 1] w) := by
      rw [show i + (k + 1) + 1 = (i + k + 1) + 1 by ring, Function.iterate_succ_apply']
    rw [hstep]
    exact weekLt_trans (get_previous_week_lt _) ih

lemma weeklyWalk_none (logs : List HabitLog) (target : Int) :
    ∀ (fuel : Nat) (w : Int × Int) (streak : Nat),
      weeklyWalk logs target fuel w streak = none →
      ∀ j : Nat, j < fuel → weekPresent logs (get_previous_week^[j] w) = true := by
  intro fuel
  induction fuel with
  | zero => intro w streak _ j hj; omega
  | succ fuel ih =>
    intro w streak h j hj
    simp only [weeklyWalk] at h
    by_cases hp : weekPresent logs w = true
    · rw [if_pos hp] at h
      by_cases hs : is_week_success target (weekStatuses logs w) = true
      · rw [if_pos hs] at h
        match j with
        | 0 => simpa using hp
        | j + 1 =>
          have := ih (get_previous_week w) (streak + 1) h j (by omega)
          rwa [← Function.iterate_succ_apply] at this
      · rw [if_neg hs] at h; exact absurd h (by simp)
    · rw [if_neg hp] at h; exact absurd h (by simp)

lemma weekPresent_mem_weekKeys (logs : List HabitLog) (w : Int × Int)
    (h : weekPresent logs w = true) : w ∈ weekKeys logs := by
  unfold weekPresent at h
  obtain ⟨p, hp, hw⟩ := List.any_eq_true.mp h
  have hw' : weekOf p.1 = w := by simpa using hw
  exact List.mem_dedup.mpr (List.mem_map.mpr ⟨p, hp, hw'⟩)

lemma weeklyCurrent_isSome (logs : List HabitLog) (target today : Int) :
    (weeklyCurrent logs target today).isSome = true := by
  rw [Option.isSome_iff_ne_none]
  intro h
  have hall := weeklyWalk_none logs target _ _ _ h
  set K := (weekKeys logs).length with hK
  have hcard :
      (Finset.univ : Finset (Fin (K + 1))).card ≤ (weekKeys logs).toFinset.card := by
    apply Finset.card_le_card_of_injOn
      (fun j : Fin (K + 1) => get_previous_week^[(j : Nat)] (weekOf today))
    · intro j _
      exact List.mem_toFinset.mpr
        (weekPresent_mem_weekKeys logs _ (hall (j : Nat) (by unfold weeklyFuel; omega)))
    · intro i _ j _ hij
      have hij' : get_previous_week^[(i : Nat)] (weekOf today) =
          get_previous_week^[(j : Nat)] (weekOf today) := hij
      by_contra hne
      have hne' : (i : Nat) ≠ (j : Nat) := fun hc => hne (Fin.ext hc)
      rcases Nat.lt_or_ge (i : Nat) (j : Nat) with hlt | hge
      · have hw := iterate_prev_lt_of_lt (weekOf today) _ _ hlt
        rw [hij'] at hw
        exact weekLt_irrefl _ hw
      · have hlt : (j : Nat) < (i : Nat) := by omega
        have hw := iterate_prev_lt_of_lt (weekOf today) _ _ hlt
        rw [hij'] at hw
        exact weekLt_irrefl _ hw
  have h1 : (Finset.univ : Finset (Fin (K + 1))).card = K + 1 := by
    simp
  have h2 : (weekKeys logs).toFinset.card ≤ K := List.toFinset_card_le _
  omega

/-! ### Daily walk: characterization of the returned streak -/

lemma doneCount_succ (m : Int → Option LogStatus) (d : Int) (n : Nat) :
    doneCount m d (n + 1) =
      (if m d = some .done then 1 else 0) + doneCount m (d - 1) n := rfl

lemma dailyWalk_some_char (m : Int → Option LogStatus) (today : Int) :
    ∀ (fuel : Nat) (d : Int) (acc c : Nat), dailyWalk m today fuel d acc = some c →
      ∃ stop : Int, stop ≤ d ∧ ¬ continuesAt m today stop ∧
        (∀ e : Int, stop < e → e ≤ d → continuesAt m today e) ∧
        c = acc + doneCount m d (d - stop).toNat := by
  intro fuel
  induction fuel with
  | zero => intro d acc c h; cases h
  | succ fuel ih =>
    intro d acc c h
    simp only [dailyWalk] at h
    cases hm : m d with
    | none =>
      rw [hm] at h
      by_cases hd : d < today
      · rw [if_pos hd] at h
        have hc : c = acc := by cases h; rfl
        refine ⟨d, le_refl d, ?_, ?_, ?_⟩
        · simp [continuesAt, hm, hd]
        · intro e he1 he2; omega
        · rw [show (d - d).toNat = 0 by omega]
          simp [doneCount, hc]
      · rw [if_neg hd] at h
        obtain ⟨stop, h1, h2, h3, h4⟩ := ih (d - 1) acc c h
        refine ⟨stop, by omega, h2, ?_, ?_⟩
        · intro e he1 he2
          by_cases he : e = d
          · subst he; exact Or.inr (Or.inr ⟨hm, hd⟩)
          · exact h3 e he1 (by omega)
        · rw [show (d - stop).toNat = (d - 1 - stop).toNat + 1 by omega,
            doneCount_succ, hm]
          rw [if_neg (by simp)]
          omega
    | some st =>
      rw [hm] at h
      cases st with
      | done =>
        obtain ⟨stop, h1, h2, h3, h4⟩ := ih (d - 1) (acc + 1) c h
        refine ⟨stop, by omega, h2, ?_, ?_⟩
        · intro e he1 he2
          by_cases he : e = d
          · subst he; exact Or.inl hm
          · exact h3 e he1 (by omega)
        · rw [show (d - stop).toNat = (d - 1 - stop).toNat + 1 by omega,
            doneCount_succ, hm]
          rw [if_pos rfl]
          omega
      | skipped =>
        obtain ⟨stop, h1, h2, h3, h4⟩ := ih (d - 1) acc c h
        refine ⟨stop, by omega, h2, ?_, ?_⟩
        · intro e he1 he2
          by_cases he : e = d
          · subst he; exact Or.inr (Or.inl hm)
          · exact h3 e he1 (by omega)
        · rw [show (d - stop).toNat = (d - 1 - stop).toNat + 1 by omega,
            doneCount_succ, hm]
          rw [if_neg (by simp)]
          omega
      | not_done =>
        have hc : c = acc := by cases h; rfl
        refine ⟨d, le_refl d, ?_, ?_, ?_⟩
        · simp [continuesAt, hm]
        · intro e he1 he2; omega
        · rw [show (d - d).toNat = 0 by omega]
          simp [doneCount, hc]

lemma dailyWalk_done_run (m : Int → Option LogStatus) (today : Int) :
    ∀ (j fuel : Nat) (d : Int) (acc : Nat),
      (∀ i : Nat, i < j → m (d - (i : Int)) = some .done) →
      m (d - (j : Int)) = none → d - (j : Int) < today → j < fuel →
      dailyWalk m today fuel d acc = some (acc + j) := by
  intro j
  induction j with
  | zero =>
    intro fuel d acc _ hnone hlt hfuel
    match fuel, hfuel with
    | fuel + 1, _ =>
      have h0 : m d = none := by simpa using hnone
      simp only [dailyWalk, h0]
      rw [if_pos (by simpa using hlt)]
      simp
  | succ j ih =>
    intro fuel d acc hdone hnone hlt hfuel
    match fuel, hfuel with
    | fuel + 1, hfuel =>
      have h0 : m d = some .done := by
        have := hdone 0 (by omega)
        simpa using this
      simp only [dailyWalk, h0]
      have hrec : dailyWalk m today fuel (d - 1) (acc + 1) = some ((acc + 1) + j) := by
        apply ih
        · intro i hi
          have harith : d - 1 - (i : Int) = d - ((i + 1 : Nat) : Int) := by
            push_cast; ring
          rw [harith]
          exact hdone (i + 1) (by omega)
        · have harith : d - 1 - (j : Int) = d - ((j + 1 : Nat) : Int) := by
            push_cast; ring
          rw [harith]
          exact hnone
        · have harith : d - 1 - (j : Int) = d - ((j + 1 : Nat) : Int) := by
            push_cast; ring
          rw [harith]
          exact hlt
        · omega
      rw [hrec]
      congr 1
      omega

lemma daily_K_run (logs : List HabitLog) (today : Int) (K : Nat) (hK1 : 1 ≤ K)
    (hm : ∀ d : Int, logByDate logs d =
      if today - (K : Int) < d ∧ d ≤ today then some .done else none) :
    calculate_daily_current logs today = some K := by
  have hdone : ∀ i : Nat, i < K → logByDate logs (today - (i : Int)) = some .done := by
    intro i hi
    rw [hm]
    rw [if_pos]
    constructor
    · have : (i : Int) < (K : Int) := by exact_mod_cast hi
      omega
    · omega
  have hnone : logByDate logs (today - (K : Int)) = none := by
    rw [hm]
    rw [if_neg]
    omega
  have hmem : (today - (K : Int) + 1) ∈ logDates logs := by
    apply mem_logDates_of_logByDate
    rw [hm, if_pos]
    · simp
    · constructor
      · omega
      · have : (1 : Int) ≤ (K : Int) := by exact_mod_cast hK1
        omega
  have hmin : minLogDate logs today ≤ today - (K : Int) + 1 :=
    foldr_min_le_mem _ _ _ hmem
  have hfuel : K < dailyFuel logs today := by
    unfold dailyFuel
    omega
  have hlt : today - (K : Int) < today := by
    have : (1 : Int) ≤ (K : Int) := by exact_mod_cast hK1
    omega
  have := dailyWalk_done_run (logByDate logs) today K (dailyFuel logs today)
    today 0 hdone hnone hlt hfuel
  simpa [calculate_daily_current] using this

/-! ### Totality of the engine -/

lemma calculate_daily_streak_isSome (logs : List HabitLog) (today : Int) :
    (calculate_daily_streak logs today).isSome = true := by
  unfold calculate_daily_streak
  by_cases h : logs.isEmpty
  · rw [if_pos h]; rfl
  · rw [if_neg h, Option.isSome_map']
    exact calculate_daily_current_isSome logs today

lemma calculate_weekly_streak_isSome (logs : List HabitLog) (wt today : Int) :
    (calculate_weekly_streak logs wt today).isSome = true := by
  unfold calculate_weekly_streak
  by_cases h1 : logs.isEmpty
  · rw [if_pos h1]; rfl
  · rw [if_neg h1]
    by_cases h2 : (sortedWeeks logs).isEmpty
    · rw [if_pos h2]; rfl
    · rw [if_neg h2, Option.isSome_map']
      exact weeklyCurrent_isSome logs wt today

lemma get_habit_stats_fields (logs : List HabitLog) (st : ScheduleType)
    (wt today : Int) (s : HabitStats)
    (h : get_habit_stats logs st wt today = some s) :
    s.done_7_days = countWindow logs today 7 ∧
    s.done_30_days = countWindow logs today 30 ∧
    s.total_done = logs.countP (fun l => l.status == .done) := by
  unfold get_habit_stats at h
  cases hst : (if st == ScheduleType.daily then calculate_daily_streak logs today
      else calculate_weekly_streak logs wt today) with
  | none => rw [hst] at h; cases h
  | some cb =>
    rw [hst] at h
    cases h
    exact ⟨rfl, rfl, rfl⟩

/-- C7: `get_habit_stats` is total: for every log collection (null dates,
duplicate dates, arbitrary order included), every schedule type, every weekly
target and every today, it returns a `HabitStats` value — the fueled loops
never run out, so no error branch of the embedding is reachable. -/
theorem C7_get_habit_stats_total (logs : List HabitLog) (st : ScheduleType)
    (wt today : Int) : (get_habit_stats logs st wt today).isSome = true := by
  unfold get_habit_stats
  rw [Option.isSome_map']
  cases st with
  | daily => exact calculate_daily_streak_isSome logs today
  | weekly => exact calculate_weekly_streak_isSome logs wt today

/-- C10: both backward walks terminate on every finite input: the daily
current-streak walk (run with its canonical fuel) always reaches a stopping
date, and the weekly walk always leaves the finite bucket-map key set since
`get_previous_week` strictly decreases the key lexicographically. -/
theorem C10_walks_terminate (logs : List HabitLog) (target today : Int) :
    (dailyWalk (logByDate logs) today (dailyFuel logs today) today 0).isSome = true ∧
    (weeklyWalk logs target (weeklyFuel logs) (weekOf today) 0).isSome = true :=
  ⟨calculate_daily_current_isSome logs today, weeklyCurrent_isSome logs target today⟩

/-! ### Rolling-window counts: claims C1, C2, C8 -/

/-- Counterexample input for C1: with `today = 0`, one `Done` record exactly
7 days old and one `Done` record dated 3 days in the future. -/
def exC1 : List HabitLog := [⟨some (-7), .done⟩, ⟨some 3, .done⟩]

/-- C1 fails on the code: the record dated `today - 7` and the future-dated
record are both counted by `done_7_days` (the code tests `days_ago <= 7`
with no lower bound), while the claim's `[0, 6]` window counts neither. -/
theorem C1_counterexample :
    (get_habit_stats exC1 .daily 1 0).map (fun s => s.done_7_days) = some 2 ∧
    specWindowDone exC1 0 0 6 = 0 ∧
    (get_habit_stats exC1 .daily 1 0).map (fun s => s.done_7_days) ≠
      some (specWindowDone exC1 0 0 6) := by
  decide

/-- C1 amended: `done7Days` counts the `Done` records with a non-null date
satisfying `(today - logDate).days ≤ 7`, and `done30Days` those satisfying
`(today - logDate).days ≤ 30` — records up to 7 (resp. 30) days old and all
future-dated records included. -/
theorem C1_amended_windows (logs : List HabitLog) (st : ScheduleType)
    (wt today : Int) (s : HabitStats)
    (h : get_habit_stats logs st wt today = some s) :
    s.done_7_days = (logs.filter (fun l => l.status == .done &&
      (match l.log_date with
       | some d => decide (today - d ≤ 7)
       | none => false))).length ∧
    s.done_30_days = (logs.filter (fun l => l.status == .done &&
      (match l.log_date with
       | some d => decide (today - d ≤ 30)
       | none => false))).length := by
  obtain ⟨h7, h30, _⟩ := get_habit_stats_fields logs st wt today s h
  rw [h7, h30]
  exact ⟨List.countP_eq_length_filter _ _, List.countP_eq_length_filter _ _⟩

theorem C1_amended_witness :
    (2 : Nat) = (exC1.filter (fun l => l.status == .done &&
      (match l.log_date with
       | some d => decide ((0 : Int) - d ≤ 7)
       | none => false))).length ∧
    (2 : Nat) = (exC1.filter (fun l => l.status == .done &&
      (match l.log_date with
       | some d => decide ((0 : Int) - d ≤ 30)
       | none => false))).length :=
  C1_amended_windows exC1 .daily 1 0 ⟨0, 1, 2, 2, 2⟩ (by decide)

/-- C2: appending a `Done` record with a null date increments `totalDone`
and leaves both windowed counts unchanged; and `totalDone` is the pure
status count of `Done` records. -/
theorem C2_null_dated_done (logs : List HabitLog) (st : ScheduleType)
    (wt today : Int) (l : HabitLog)
    (hdate : l.log_date = none) (hstatus : l.status = .done)
    (s s' : HabitStats)
    (h : get_habit_stats logs st wt today = some s)
    (h' : get_habit_stats (logs ++ [l]) st wt today = some s') :
    s'.total_done = s.total_done + 1 ∧
    s'.done_7_days = s.done_7_days ∧
    s'.done_30_days = s.done_30_days ∧
    s.total_done = logs.countP (fun x => x.status == .done) := by
  obtain ⟨h7, h30, ht⟩ := get_habit_stats_fields logs st wt today s h
  obtain ⟨h7', h30', ht'⟩ := get_habit_stats_fields (logs ++ [l]) st wt today s' h'
  refine ⟨?_, ?_, ?_, ht⟩
  · rw [ht, ht', List.countP_append]
    simp [List.countP_cons, hstatus]
  · rw [h7, h7']
    unfold countWindow
    rw [List.countP_append]
    simp [List.countP_cons, hdate]
  · rw [h30, h30']
    unfold countWindow
    rw [List.countP_append]
    simp [List.countP_cons, hdate]

/-- Witness input for C2: a dated history plus one null-dated `Done` record. -/
def exC2 : List HabitLog := [⟨some 0, .done⟩]

theorem C2_witness :
    (2 : Nat) = 1 + 1 ∧ (1 : Nat) = 1 ∧ (1 : Nat) = 1 ∧
    (1 : Nat) = exC2.countP (fun x => x.status == .done) :=
  C2_null_dated_done exC2 .daily 1 0 ⟨none, .done⟩ rfl rfl
    ⟨1, 1, 1, 1, 1⟩ ⟨1, 1, 1, 1, 2⟩ (by decide) (by decide)

/-- C8: the returned statistics always satisfy
`done7Days ≤ done30Days ≤ totalDone`. -/
theorem C8_window_monotone (logs : List HabitLog) (st : ScheduleType)
    (wt today : Int) (s : HabitStats)
    (h : get_habit_stats logs st wt today = some s) :
    s.done_7_days ≤ s.done_30_days ∧ s.done_30_days ≤ s.total_done := by
  obtain ⟨h7, h30, ht⟩ := get_habit_stats_fields logs st wt today s h
  rw [h7, h30, ht]
  constructor
  · apply List.countP_mono_left
    intro l _ hp
    rw [Bool.and_eq_true] at hp
    rw [Bool.and_eq_true]
    refine ⟨hp.1, ?_⟩
    have hp2 := hp.2
    cases hl : l.log_date with
    | none =>
      rw [hl] at hp2
      exact Bool.noConfusion hp2
    | some d =>
      rw [hl] at hp2
      have h7d : today - d ≤ 7 := of_decide_eq_true hp2
      exact decide_eq_true (by omega)
  · apply List.countP_mono_left
    intro l _ hp
    rw [Bool.and_eq_true] at hp
    exact hp.1

/-- Witness input for C8: mixed ages and a null-dated record. -/
def exC8 : List HabitLog := [⟨some 0, .done⟩, ⟨some (-10), .done⟩, ⟨none, .done⟩]

theorem C8_witness : (1 : Nat) ≤ 2 ∧ (2 : Nat) ≤ 3 :=
  C8_window_monotone exC8 .daily 1 0 ⟨1, 1, 1, 2, 3⟩ (by decide)

/-! ### Claim C3: daily current streak -/

/-- C3: the daily current streak is the backward walk from `today` — `Done`
counts and continues, `Skipped` continues without counting, `NotDone` stops,
an unmarked date strictly before `today` stops, and an unmarked `today`
continues without counting: the result is the number of `Done` dates strictly
after the stopping date. In particular `Done` records on exactly the last `K`
days ending `today` (`K ≥ 1`) give current streak `K`. -/
theorem C3_daily_current_walk (logs : List HabitLog) (today : Int) (c : Nat)
    (h : calculate_daily_current logs today = some c) :
    (∃ stop : Int, stop ≤ today ∧ ¬ continuesAt (logByDate logs) today stop ∧
      (∀ e : Int, stop < e → e ≤ today → continuesAt (logByDate logs) today e) ∧
      c = doneCount (logByDate logs) today (today - stop).toNat) ∧
    (∀ K : Nat, 1 ≤ K →
      (∀ d : Int, logByDate logs d =
        if today - (K : Int) < d ∧ d ≤ today then some .done else none) →
      (calculate_daily_streak logs today).map Prod.fst = some K) := by
  constructor
  · obtain ⟨stop, h1, h2, h3, h4⟩ :=
      dailyWalk_some_char (logByDate logs) today _ _ _ _ h
    exact ⟨stop, h1, h2, h3, by omega⟩
  · intro K hK1 hm
    have hKpos : (0 : Int) < (K : Int) := by exact_mod_cast hK1
    have hne : logs ≠ [] := by
      intro hnil
      have hmt := hm today
      rw [if_pos (by constructor <;> omega)] at hmt
      rw [hnil] at hmt
      simp [logByDate] at hmt
    have hcur := daily_K_run logs today K hK1 hm
    rw [calculate_daily_streak, if_neg (by simpa using hne), hcur]
    rfl

/-- Witness input for C3: a single `Done` record on `today = 10`. -/
def exC3 : List HabitLog := [⟨some 10, .done⟩]

theorem C3_witness : (calculate_daily_streak exC3 10).map Prod.fst = some 1 :=
  (C3_daily_current_walk exC3 10 1 (by decide)).2 1 (by decide) (by
    intro d
    by_cases hd : d = 10
    · subst hd; decide
    · have hp : ((⟨some 10, .done⟩ : HabitLog).log_date == some d) = false := by
        rw [beq_eq_false_iff_ne]
        intro hc
        exact hd (Option.some.inj hc).symm
      have h1 : logByDate exC3 d = none := by
        unfold logByDate exC3
        rw [List.reverse_singleton, List.find?_cons]
        simp only [hp]
        rfl
      rw [h1, if_neg]
      simp only [Nat.cast_one]
      omega)

/-! ### Claim C6: ISO week rollover -/

/-- C6 fails on the code: `get_previous_week (2025, 1)` returns `(2024, 1)`
because December 31 2024 belongs to ISO week 1 of 2025, whereas the last ISO
week of 2024 (the week of December 28 2024) is `(2024, 52)`. -/
theorem C6_previous_week_rollover_bug :
    get_previous_week (2025, 1) = (2024, 1) ∧
    isoLastWeekOfYear 2024 = 52 ∧
    get_previous_week (2025, 1) ≠ (2024, isoLastWeekOfYear 2024) ∧
    weekOf (daysBeforeYear 2025 - 3) = (2024, 52) := by
  decide

/-! ### Claim C9: best streak versus current streak -/

/-- Failing input for C9: `Done` records in ISO weeks `(2024, 1)`,
`(2024, 30)` and `(2025, 1)`, with `today` = January 2 2025 and weekly
target 1. -/
def exC9 : List HabitLog :=
  [⟨some (daysBeforeYear 2024 + 4), .done⟩,
   ⟨some (daysBeforeYear 2024 + 207), .done⟩,
   ⟨some (daysBeforeYear 2025 + 2), .done⟩]

/-- C9 fails on the code for the weekly policy: on `exC9` (one record per
date) the current streak is 2 — the walk jumps from `(2025, 1)` to
`(2024, 1)` through the buggy `get_previous_week` — while the best-streak
scan over the sorted weeks finds only runs of length 1. -/
theorem C9_best_lt_current :
    (logDates exC9).Nodup ∧
    get_habit_stats exC9 .weekly 1 (daysBeforeYear 2025 + 2) =
      some ⟨2, 1, 1, 1, 3⟩ ∧
    (1 : Nat) < 2 := by
  decide

/-! ### Claim C5: weekly success condition and current-streak walk -/

lemma weeklyWalk_some_char (logs : List HabitLog) (target : Int) :
    ∀ (fuel : Nat) (w : Int × Int) (streak c : Nat),
      weeklyWalk logs target fuel w streak = some c →
      ∃ n : Nat, c = streak + n ∧
        (∀ j : Nat, j < n → weekPresent logs (get_previous_week^[j] w) = true ∧
          is_week_success target (weekStatuses logs (get_previous_week^[j] w)) = true) ∧
        (weekPresent logs (get_previous_week^[n] w) = false ∨
         is_week_success target (weekStatuses logs (get_previous_week^[n] w)) = false) := by
  intro fuel
  induction fuel with
  | zero => intro w streak c h; cases h
  | succ fuel ih =>
    intro w streak c h
    simp only [weeklyWalk] at h
    by_cases hp : weekPresent logs w = true
    · rw [if_pos hp] at h
      by_cases hs : is_week_success target (weekStatuses logs w) = true
      · rw [if_pos hs] at h
        obtain ⟨n, hc, hrun, hstop⟩ := ih (get_previous_week w) (streak + 1) c h
        refine ⟨n + 1, by omega, ?_, ?_⟩
        · intro j hj
          match j with
          | 0 =>
            simp only [Function.iterate_zero_apply]
            exact ⟨hp, hs⟩
          | j + 1 =>
            have := hrun j (by omega)
            rwa [← Function.iterate_succ_apply] at this
        · rw [Function.iterate_succ_apply]
          exact hstop
      · rw [if_neg hs] at h
        have hc : c = streak := by cases h; rfl
        refine ⟨0, by omega, by intro j hj; omega, Or.inr ?_⟩
        simp only [Function.iterate_zero_apply]
        exact Bool.not_eq_true _ ▸ hs
    · rw [if_neg hp] at h
      have hc : c = streak := by cases h; rfl
      refine ⟨0, by omega, by intro j hj; omega, Or.inl ?_⟩
      simp only [Function.iterate_zero_apply]
      exact Bool.not_eq_true _ ▸ hp

lemma countP_done_filter_skipped (sts : List LogStatus) :
    (sts.filter (fun s => !(s == LogStatus.skipped))).countP
        (fun s => s == LogStatus.done) =
      sts.countP (fun s => s == LogStatus.done) := by
  induction sts with
  | nil => rfl
  | cons s rest ih =>
    cases s <;> simp [List.filter_cons, List.countP_cons, ih]

lemma insertWeek_length (w : Int × Int) (l : List (Int × Int)) :
    (insertWeek w l).length = l.length + 1 := by
  induction l with
  | nil => rfl
  | cons q rest ih =>
    unfold insertWeek
    by_cases h : weekLe q w = true
    · rw [if_pos h]
      simp [ih]
    · rw [if_neg h]
      simp

lemma foldl_insertWeek_length (l : List (Int × Int)) :
    ∀ acc : List (Int × Int),
      (l.foldl (fun acc w => insertWeek w acc) acc).length = acc.length + l.length := by
  induction l with
  | nil => intro acc; simp
  | cons w rest ih =>
    intro acc
    rw [List.foldl_cons, ih, insertWeek_length]
    simp only [List.length_cons]
    omega

lemma weekKeys_eq_nil_of_sortedWeeks_isEmpty (logs : List HabitLog)
    (h : (sortedWeeks logs).isEmpty = true) : weekKeys logs = [] := by
  have hlen := foldl_insertWeek_length (weekKeys logs) []
  rw [List.isEmpty_iff] at h
  unfold sortedWeeks at h
  rw [h] at hlen
  simp at hlen
  exact List.length_eq_zero.mp hlen.symm

lemma weekPresent_false_of_keys_nil (logs : List HabitLog) (w : Int × Int)
    (h : weekKeys logs = []) : weekPresent logs w = false := by
  by_contra hc
  have hpres : weekPresent logs w = true := by
    cases hval : weekPresent logs w
    · exact absurd hval hc
    · rfl
  have := weekPresent_mem_weekKeys logs w hpres
  rw [h] at this
  cases this

lemma weeklyCurrent_of_not_present (logs : List HabitLog) (target today : Int)
    (h : weekPresent logs (weekOf today) = false) :
    weeklyCurrent logs target today = some 0 := by
  unfold weeklyCurrent weeklyFuel
  simp only [weeklyWalk]
  rw [if_neg (by simp [h])]

/-- C5: a week is successful iff its bucket holds at least `target` `Done`
records (`Skipped` records never contribute), and the weekly current streak
walks backward from the ISO week of `today` through present-and-successful
weeks, stopping at the first week that is absent from the bucket map or
unsuccessful. -/
theorem C5_weekly_success_and_walk (logs : List HabitLog) (target today : Int)
    (c : Nat) (h : weeklyCurrent logs target today = some c) :
    (∀ sts : List LogStatus,
      (is_week_success target sts = true ↔
        target ≤ (sts.countP (fun s => s == LogStatus.done) : Int)) ∧
      is_week_success target sts =
        is_week_success target (sts.filter (fun s => !(s == LogStatus.skipped)))) ∧
    (∀ j : Nat, j < c →
      weekPresent logs (get_previous_week^[j] (weekOf today)) = true ∧
      is_week_success target
        (weekStatuses logs (get_previous_week^[j] (weekOf today))) = true) ∧
    (weekPresent logs (get_previous_week^[c] (weekOf today)) = false ∨
     is_week_success target
       (weekStatuses logs (get_previous_week^[c] (weekOf today))) = false) ∧
    (calculate_weekly_streak logs target today).map Prod.fst = some c := by
  obtain ⟨n, hc, hrun, hstop⟩ :=
    weeklyWalk_some_char logs target (weeklyFuel logs) (weekOf today) 0 c h
  have hn : n = c := by omega
  subst hn
  refine ⟨?_, hrun, hstop, ?_⟩
  · intro sts
    constructor
    · exact decide_eq_true_iff
    · unfold is_week_success
      rw [countP_done_filter_skipped]
  · unfold calculate_weekly_streak
    by_cases h1 : logs.isEmpty
    · rw [if_pos h1]
      have hkeys : weekKeys logs = [] := by
        rw [List.isEmpty_iff] at h1
        rw [h1]
        rfl
      have h0 := weeklyCurrent_of_not_present logs target today
        (weekPresent_false_of_keys_nil logs _ hkeys)
      rw [h] at h0
      cases h0
      rfl
    · rw [if_neg h1]
      by_cases h2 : (sortedWeeks logs).isEmpty
      · rw [if_pos h2]
        have h0 := weeklyCurrent_of_not_present logs target today
          (weekPresent_false_of_keys_nil logs _
            (weekKeys_eq_nil_of_sortedWeeks_isEmpty logs h2))
        rw [h] at h0
        cases h0
        rfl
      · rw [if_neg h2, h]
        rfl

/-- Witness input for C5: a single `Done` record on ordinal 4 (a Thursday of
ISO week `(1, 1)`), with `today` the same day and target 1. -/
def exC5 : List HabitLog := [⟨some 4, .done⟩]

theorem C5_witness :
    weekPresent exC5 (get_previous_week^[1] (weekOf 4)) = false ∨
    is_week_success 1 (weekStatuses exC5 (get_previous_week^[1] (weekOf 4))) = false :=
  (C5_weekly_success_and_walk exC5 1 4 1 (by decide)).2.2.1

/-! ### Claim C4: daily best-streak gap bridging -/

/-- The best-streak rule exactly as claim C4 states it: the adjacency anchor
is the previous `Done` record only; a `Done` extends the streak iff it is one
day after that `Done` or every date strictly between carries a `Skipped`
record; `Skipped` records never move the anchor; `NotDone` resets the streak
to 0 and clears the anchor. -/
def specC4Scan (m : Int → Option LogStatus) :
    List (Int × LogStatus) → Option Int → Nat → Nat → Nat
  | [], _, _, best => best
  | (d, st) :: rest, prevDone, streak, best =>
    match st with
    | .done =>
      let streak' :=
        match prevDone with
        | none => 1
        | some a => if (d == a + 1) || gapOk m a d then streak + 1 else 1
      specC4Scan m rest (some d) streak' (max best streak')
    | .skipped => specC4Scan m rest prevDone streak best
    | .not_done => specC4Scan m rest none 0 best

/-- Best streak computed by claim C4's stated rule. -/
def specC4Best (logs : List HabitLog) : Nat :=
  specC4Scan (logByDate logs) (sortedDated logs) none 0 0

/-- The best-streak rule as amended: the anchor is the date of the previous
processed `Done`-or-`Skipped` record (a `Skipped` record moves the anchor
whenever one is set); a `Done` extends iff adjacent to that anchor or the gap
from the anchor is entirely `Skipped`-bridged; `NotDone` resets and clears. -/
def specC4AmendedScan (m : Int → Option LogStatus) :
    List (Int × LogStatus) → Option Int → Nat → Nat → Nat
  | [], _, _, best => best
  | (d, st) :: rest, anchor, streak, best =>
    match st with
    | .done =>
      let streak' :=
        match anchor with
        | none => 1
        | some a => if (d == a + 1) || gapOk m a d then streak + 1 else 1
      specC4AmendedScan m rest (some d) streak' (max best streak')
    | .skipped => specC4AmendedScan m rest (anchor.map (fun _ => d)) streak best
    | .not_done => specC4AmendedScan m rest none 0 best

/-- Best streak computed by the amended rule. -/
def specC4AmendedBest (logs : List HabitLog) : Nat :=
  specC4AmendedScan (logByDate logs) (sortedDated logs) none 0 0

/-- Counterexample input for C4 (one record per date): `Done` on day 700000,
`Skipped` on day 700005, `Done` on day 700006. -/
def exC4 : List HabitLog :=
  [⟨some 700000, .done⟩, ⟨some 700005, .skipped⟩, ⟨some 700006, .done⟩]

/-- C4 fails on the code: on `exC4` the code's scan yields best streak 2 —
the `Skipped` record on day 700005 moves the anchor, so the `Done` on day
700006 counts as adjacent — while the claim's previous-`Done` anchor rule
breaks the bridge on the unmarked days 700001-700004 and yields 1. -/
theorem C4_counterexample :
    (logDates exC4).Nodup ∧
    calculate_daily_best exC4 = 2 ∧
    specC4Best exC4 = 1 ∧
    calculate_daily_best exC4 ≠ specC4Best exC4 := by
  decide

lemma mem_insertByDate (p q : Int × LogStatus) :
    ∀ l : List (Int × LogStatus), q ∈ insertByDate p l → q = p ∨ q ∈ l := by
  intro l
  induction l with
  | nil =>
    intro h
    simp only [insertByDate] at h
    rcases List.mem_singleton.mp h with rfl
    exact Or.inl rfl
  | cons r rest ih =>
    intro h
    simp only [insertByDate] at h
    by_cases hc : r.1 ≤ p.1
    · rw [if_pos hc] at h
      rcases List.mem_cons.mp h with rfl | h2
      · exact Or.inr (List.mem_cons_self _ _)
      · rcases ih h2 with h3 | h3
        · exact Or.inl h3
        · exact Or.inr (List.mem_cons_of_mem _ h3)
    · rw [if_neg hc] at h
      rcases List.mem_cons.mp h with rfl | h2
      · exact Or.inl rfl
      · exact Or.inr h2

lemma insertByDate_pairwise (p : Int × LogStatus) :
    ∀ l : List (Int × LogStatus),
      List.Pairwise (fun a b : Int × LogStatus => a.1 ≤ b.1) l →
      List.Pairwise (fun a b : Int × LogStatus => a.1 ≤ b.1) (insertByDate p l) := by
  intro l
  induction l with
  | nil => intro _; simp [insertByDate]
  | cons r rest ih =>
    intro h
    obtain ⟨hhead, htail⟩ := List.pairwise_cons.mp h
    simp only [insertByDate]
    by_cases hc : r.1 ≤ p.1
    · rw [if_pos hc]
      rw [List.pairwise_cons]
      refine ⟨?_, ih htail⟩
      intro q hq
      rcases mem_insertByDate p q rest hq with rfl | h2
      · exact hc
      · exact hhead q h2
    · rw [if_neg hc]
      rw [List.pairwise_cons]
      refine ⟨?_, h⟩
      intro q hq
      rcases List.mem_cons.mp hq with rfl | h2
      · omega
      · have := hhead q h2
        omega

lemma insertByDate_perm (p : Int × LogStatus) :
    ∀ l : List (Int × LogStatus), List.Perm (insertByDate p l) (p :: l) := by
  intro l
  induction l with
  | nil => exact List.Perm.refl _
  | cons r rest ih =>
    simp only [insertByDate]
    by_cases hc : r.1 ≤ p.1
    · rw [if_pos hc]
      exact (ih.cons r).trans (List.Perm.swap p r rest)
    · rw [if_neg hc]

lemma foldl_insertByDate_perm :
    ∀ (l acc : List (Int × LogStatus)),
      List.Perm (l.foldl (fun acc p => insertByDate p acc) acc) (acc ++ l) := by
  intro l
  induction l with
  | nil => intro acc; simp
  | cons p rest ih =>
    intro acc
    rw [List.foldl_cons]
    refine (ih (insertByDate p acc)).trans ?_
    refine (((insertByDate_perm p acc).append_right rest).trans ?_)
    exact List.perm_middle.symm

lemma foldl_insertByDate_pairwise :
    ∀ (l acc : List (Int × LogStatus)),
      List.Pairwise (fun a b : Int × LogStatus => a.1 ≤ b.1) acc →
      List.Pairwise (fun a b : Int × LogStatus => a.1 ≤ b.1)
        (l.foldl (fun acc p => insertByDate p acc) acc) := by
  intro l
  induction l with
  | nil => intro acc h; exact h
  | cons p rest ih =>
    intro acc h
    rw [List.foldl_cons]
    exact ih _ (insertByDate_pairwise p acc h)

lemma sortedDated_perm (logs : List HabitLog) :
    List.Perm (sortedDated logs) (datedLogs logs) := by
  unfold sortedDated
  have := foldl_insertByDate_perm (datedLogs logs) []
  simpa using this

lemma sortedDated_pairwise_le (logs : List HabitLog) :
    List.Pairwise (fun a b : Int × LogStatus => a.1 ≤ b.1) (sortedDated logs) :=
  foldl_insertByDate_pairwise (datedLogs logs) [] (List.Pairwise.nil)

lemma datedLogs_map_fst (logs : List HabitLog) :
    (datedLogs logs).map Prod.fst = logDates logs := by
  induction logs with
  | nil => rfl
  | cons l rest ih =>
    cases hl : l.log_date <;>
      simp [datedLogs, logDates, List.filterMap_cons, hl] <;>
      simpa [datedLogs, logDates] using ih

lemma sortedDated_pairwise_lt (logs : List HabitLog)
    (hnd : (logDates logs).Nodup) :
    List.Pairwise (fun a b : Int × LogStatus => a.1 < b.1) (sortedDated logs) := by
  have hle := sortedDated_pairwise_le logs
  have hperm := sortedDated_perm logs
  have hnd2 : ((datedLogs logs).map Prod.fst).Nodup := by
    rw [datedLogs_map_fst]
    exact hnd
  have hnd' : ((sortedDated logs).map Prod.fst).Nodup :=
    (hperm.map Prod.fst).nodup_iff.mpr hnd2
  have hne : List.Pairwise
      (fun a b : Int × LogStatus => a.1 ≠ b.1) (sortedDated logs) :=
    (List.pairwise_map).mp hnd'
  exact (hle.and hne).imp (fun h => lt_of_le_of_ne h.1 h.2)

lemma bestStep_done_streak (m : Int → Option LogStatus) (streak best : Nat)
    (a d : Int) (had : a < d) :
    (bestStep m ⟨streak, some a, best⟩ (d, .done)).streak =
      (if (d == a + 1) || gapOk m a d then streak + 1 else 1) := by
  show (if d == a + 1 then streak + 1 else if d == a then streak
        else if gapOk m a d then streak + 1 else 1) =
      (if (d == a + 1) || gapOk m a d then streak + 1 else 1)
  cases h1 : (d == a + 1 : Bool) with
  | true => simp [h1]
  | false =>
    have hda : (d == a : Bool) = false := by
      rw [beq_eq_false_iff_ne]
      intro hc
      omega
    cases h2 : gapOk m a d with
    | true => simp [h1, hda, h2]
    | false => simp [h1, hda, h2]

lemma bestFold_eq_amendedScan (m : Int → Option LogStatus) :
    ∀ (l : List (Int × LogStatus)) (anchor : Option Int) (streak best : Nat),
      List.Pairwise (fun a b : Int × LogStatus => a.1 < b.1) l →
      (∀ a : Int, anchor = some a → ∀ p ∈ l, a < p.1) →
      (l.foldl (bestStep m) ⟨streak, anchor, best⟩).best =
        specC4AmendedScan m l anchor streak best := by
  intro l
  induction l with
  | nil => intro anchor streak best _ _; rfl
  | cons p rest ih =>
    intro anchor streak best hpw hanch
    obtain ⟨d, st⟩ := p
    obtain ⟨hhead, htail⟩ := List.pairwise_cons.mp hpw
    rw [List.foldl_cons]
    cases st with
    | done =>
      cases anchor with
      | none =>
        rw [show bestStep m ⟨streak, none, best⟩ (d, .done) =
          ⟨1, some d, max best 1⟩ from rfl]
        rw [show specC4AmendedScan m ((d, .done) :: rest) none streak best =
          specC4AmendedScan m rest (some d) 1 (max best 1) from rfl]
        refine ih (some d) 1 (max best 1) htail ?_
        intro a ha q hq
        cases ha
        exact hhead q hq
      | some a =>
        have had : a < d := hanch a rfl (d, .done) (List.mem_cons_self _ _)
        have hs := bestStep_done_streak m streak best a d had
        have hstate : bestStep m ⟨streak, some a, best⟩ (d, .done) =
            ⟨(if (d == a + 1) || gapOk m a d then streak + 1 else 1), some d,
             max best (if (d == a + 1) || gapOk m a d then streak + 1 else 1)⟩ := by
          have hbase : bestStep m ⟨streak, some a, best⟩ (d, .done) =
              ⟨(bestStep m ⟨streak, some a, best⟩ (d, .done)).streak, some d,
               max best (bestStep m ⟨streak, some a, best⟩ (d, .done)).streak⟩ := rfl
          rw [hbase, hs]
        rw [hstate]
        rw [show specC4AmendedScan m ((d, .done) :: rest) (some a) streak best =
          specC4AmendedScan m rest (some d)
            (if (d == a + 1) || gapOk m a d then streak + 1 else 1)
            (max best (if (d == a + 1) || gapOk m a d then streak + 1 else 1))
          from rfl]
        refine ih (some d) _ _ htail ?_
        intro a' ha' q hq
        cases ha'
        exact hhead q hq
    | skipped =>
      cases anchor with
      | none =>
        rw [show bestStep m ⟨streak, none, best⟩ (d, .skipped) =
          ⟨streak, none, best⟩ from rfl]
        rw [show specC4AmendedScan m ((d, .skipped) :: rest) none streak best =
          specC4AmendedScan m rest none streak best from rfl]
        exact ih none streak best htail (fun a ha => by cases ha)
      | some a =>
        rw [show bestStep m ⟨streak, some a, best⟩ (d, .skipped) =
          ⟨streak, some d, best⟩ from rfl]
        rw [show specC4AmendedScan m ((d, .skipped) :: rest) (some a) streak best =
          specC4AmendedScan m rest (some d) streak best from rfl]
        refine ih (some d) streak best htail ?_
        intro a' ha' q hq
        cases ha'
        exact hhead q hq
    | not_done =>
      rw [show bestStep m ⟨streak, anchor, best⟩ (d, .not_done) =
        ⟨0, none, best⟩ from rfl]
      rw [show specC4AmendedScan m ((d, .not_done) :: rest) anchor streak best =
        specC4AmendedScan m rest none 0 best from rfl]
      exact ih none 0 best htail (fun a ha => by cases ha)

/-- C4 amended: for inputs with at most one record per calendar date, the
best-streak scan's adjacency anchor is the previous `Done`-or-`Skipped`
record (a `Skipped` record moves the anchor whenever one is set), and a
`Done` extends the running streak iff it is one day after that anchor or
every date strictly between the anchor and it carries a `Skipped` record;
otherwise the streak resets to 1; `NotDone` resets to 0 and clears the
anchor. -/
theorem C4_amended_anchor_rule (logs : List HabitLog)
    (hnd : (logDates logs).Nodup) :
    calculate_daily_best logs = specC4AmendedBest logs := by
  unfold calculate_daily_best specC4AmendedBest
  exact bestFold_eq_amendedScan (logByDate logs) (sortedDated logs) none 0 0
    (sortedDated_pairwise_lt logs hnd) (fun a ha => by cases ha)

theorem C4_amended_witness : calculate_daily_best exC4 = specC4AmendedBest exC4 :=
  C4_amended_anchor_rule exC4 (by decide)

end Streak
